import Mathlib

/-!
Verification of `xpostgres.py` (Apple's PostgreSQL supervisor wrapper).

This file gives a shallow embedding of the pure/decidable cores of the
program — the backup decision policy, the inheritable filesystem lock, the
reference-counting control plane, the configuration rewriter, the archive
pruning/unpartialize operations, the base-backup capture, and the archiver
personality — and proves (or refutes) the specified properties about them.

File-system state is modelled explicitly (directories as lists of names,
symlinks as optional targets); stateful code becomes explicit state passing.
Python 2 `/` on integers is natural-number division; `str.split` and the
regular-expression matches used by the code are embedded as executable
character-list functions that mirror the greedy/backtracking behaviour of
the concrete patterns.

The file is organised as: all definitions first, then all theorems.
-/

namespace XPG

/-! ## Definitions: constants -/

/-- bytes per gigabyte (`GIGS = 1024 ** 3` in the source). -/
def GIGS : Nat := 1024 ^ 3

/-- `MIN_FREE_SPACE_GIGS = 30`. -/
def MIN_FREE_SPACE_GIGS : Nat := 30

/-- `MIN_BACKUP_THRESHOLD_SECS = 900`. -/
def MIN_BACKUP_THRESHOLD_SECS : Int := 900

/-- `MAINTAINED_LOG_COUNT = 4`. -/
def MAINTAINED_LOG_COUNT : Nat := 4

/-! ## Definitions: backup decision policy (`should_backup`) -/

/-- `XPostgres.archive_disk_capacity_gigabytes` /
`XPostgres.archive_disk_available_gigabytes`: `(f_frsize * f_<attr>) / GIGS`,
with Python 2 integer (floor) division. -/
def archive_disk_gigabytes (frsize blocks : Nat) : Nat :=
  frsize * blocks / GIGS

/-- `XPostgres.max_archive_gigabytes`, taking the already-computed capacity
in gigabytes: `< 50 → 5`, `< 100 → 10`, `< 200 → 20`, otherwise `30`. -/
def max_archive_gigabytes (capacity : Nat) : Nat :=
  if capacity < 50 then 5
  else if capacity < 100 then 10
  else if capacity < 200 then 20
  else 30

/-- The inputs that `XPostgres.should_backup` reads from the reactor clock
and the file system. `timeSinceChange` is
`reactor.seconds() - backup_zip_file.getModificationTime()` (only meaningful
when `backupExists`); `diskFreeGigs` and `capacityGigs` come from `statvfs`
(floor-divided to gigabytes); `archiveLogBytes` is the summed size of the
archive directory contents. -/
structure BackupEnv where
  backupExists : Bool
  timeSinceChange : Int
  diskFreeGigs : Nat
  capacityGigs : Nat
  archiveLogBytes : Nat
  doNotBackup : Bool

/-- `XPostgres.should_backup`, with the file-system reads replaced by the
fields of a `BackupEnv`.  The checks appear in exactly the source order:
freshness of the current backup, then free disk space, then archive size
against the scaled cap, then the `.DoNotBackup` veto, then first-backup. -/
def should_backup (e : BackupEnv) : Bool :=
  if e.backupExists && decide (e.timeSinceChange < MIN_BACKUP_THRESHOLD_SECS) then
    false
  else if MIN_FREE_SPACE_GIGS > e.diskFreeGigs then
    true
  else if e.archiveLogBytes / GIGS > max_archive_gigabytes e.capacityGigs then
    true
  else if e.doNotBackup then
    false
  else if !e.backupExists then
    true
  else
    false

/-! ## Definitions: archiver personality (`XPGArchive.do_everything`) -/

/-- a regular file, for the archiver model: its byte content and mode. -/
structure AFile where
  content : List Nat
  mode : Nat
deriving DecidableEq

/-- `FilePath.getsize` of the model file. -/
def AFile.size (f : AFile) : Nat := f.content.length

/-- the slice of the file system the archiver touches: the destination path
and the `.in-progress` temporary sibling (the source is read-only input). -/
structure ArchiverFS where
  dest : Option AFile
  temp : Option AFile
deriving DecidableEq

/-- whether the destination exists with the same size as the source
(`toPath.exists() and toPath.getsize() == fromPath.getsize()`). -/
def archiver_noop (src : AFile) (fs : ArchiverFS) : Bool :=
  match fs.dest with
  | some d => d.size == src.size
  | none => false

/-- `XPGArchive.do_everything` on the file-system slice: if the destination
exists with the source's size, do nothing; otherwise `copyTo` a sibling
temporary with extension `.in-progress`, `moveTo` (rename) it onto the
destination, and `chmod 0600` the destination. -/
def xpgarchive_do_everything (src : AFile) (fs : ArchiverFS) : ArchiverFS :=
  if archiver_noop src fs then fs
  else
    let copied : ArchiverFS := ⟨fs.dest, some ⟨src.content, src.mode⟩⟩
    let renamed : ArchiverFS := ⟨copied.temp, none⟩
    ⟨(renamed.dest).map (fun d => ⟨d.content, 0o600⟩), renamed.temp⟩

/-! ## Definitions: reference counting (`incref` / `decrefFrom`) -/

/-- control-plane verbs that change the reference count. -/
inductive CtrlMsg
  | incref
  | decref
deriving DecidableEq

/-- the supervisor state the control messages touch: the reference count and
whether the reactor is still running (a `Decref` to zero calls
`reactor.stop()`). -/
structure SupState where
  refcount : Int
  running : Bool
deriving DecidableEq

/-- one control message, as handled by `XPostgres.incref` /
`XPostgres.decrefFrom`: `incref` adds one; `decref` subtracts one
*unconditionally* and calls `reactor.stop()` when the count reaches zero.
Messages keep being dispatched even after `reactor.stop()` — AMP delivers
pipelined boxes synchronously, and existing connections stay serviced
through the before-shutdown phase (`stopListening` only refuses new
connections) — so no message is gated on the reactor state. -/
def ctrl_step (s : SupState) (m : CtrlMsg) : SupState :=
  match m with
  | .incref => ⟨s.refcount + 1, s.running⟩
  | .decref =>
    if s.refcount - 1 = 0 then ⟨s.refcount - 1, false⟩
    else ⟨s.refcount - 1, s.running⟩

/-- initial supervisor state: `self.refcount = 1`, reactor running. -/
def ctrl_init : SupState := ⟨1, true⟩

/-- run a sequence of control messages from the initial state. -/
def ctrl_run (ms : List CtrlMsg) : SupState := ms.foldl ctrl_step ctrl_init

/-- `#Incref - #Decref` of a message sequence, as an integer. -/
def balance : List CtrlMsg → Int
  | [] => 0
  | .incref :: rest => balance rest + 1
  | .decref :: rest => balance rest - 1

/-! ## Definitions: character-list primitives

`String.splitOn` and friends do not reduce well in the kernel, so the
Python string operations the code uses are embedded as structural
functions on character lists. -/

/-- Python `s.split(sep)` for a one-character separator, on character
lists.  Like Python's `split`, the result is never empty and splitting the
empty string yields `[[]]`. -/
def splitOnChar (sep : Char) : List Char → List (List Char)
  | [] => [[]]
  | c :: cs =>
    if c = sep then [] :: splitOnChar sep cs
    else
      match splitOnChar sep cs with
      | [] => [[c]]
      | h :: t => (c :: h) :: t

/-- Python `sep.join(parts)` for a one-character separator. -/
def joinWith (sep : Char) : List (List Char) → List Char
  | [] => []
  | [x] => x
  | x :: y :: rest => x ++ sep :: joinWith sep (y :: rest)

/-- does `l` end with `suf`? -/
def hasSuffix (l suf : List Char) : Bool :=
  decide (suf.length ≤ l.length) && (l.drop (l.length - suf.length) == suf)

/-- a file name, as its character list. -/
abbrev Name := List Char

/-! ## Definitions: archive pruning and unpartialize -/

/-- the final dot-segment of a file name, Python `name.split('.')[-1]`. -/
def finalSeg (n : Name) : Name := (splitOnChar (Char.ofNat 46) n).getLastD []

/-- the name with its final dot-segment removed,
Python `'.'.join(name.split('.')[:-1])`. -/
def withoutFinalSeg (n : Name) : Name :=
  joinWith (Char.ofNat 46) (splitOnChar (Char.ofNat 46) n).dropLast

/-- one iteration of the loop in `XPostgres.prune_useless_archive_logs`,
for the child called `name`, acting on the current directory contents
`cur`: a `*.partial` child whose complete sibling exists is removed, and a
`*.in-progress` child is removed unconditionally. -/
def pruneStep (cur : List Name) (name : Name) : List Name :=
  if 1 < (splitOnChar (Char.ofNat 46) name).length then
    if finalSeg name = "partial".data then
      if withoutFinalSeg name ∈ cur then cur.erase name else cur
    else if finalSeg name = "in-progress".data then cur.erase name
    else cur
  else cur

/-- `XPostgres.prune_useless_archive_logs`: iterate over the directory
listing taken at entry, removing children from the (changing) directory. -/
def prune_useless_archive_logs (dir : List Name) : List Name :=
  dir.foldl pruneStep dir

/-- whether `glob('*.partial')` matches a name: it must end in `.partial`
and (glob never matches dot-files with a `*` pattern) not start with a
dot. -/
def isPartialGlob (n : Name) : Bool :=
  hasSuffix n ".partial".data &&
    !(match n with | c :: _ => c == Char.ofNat 46 | [] => false)

/-- one iteration of the loop in `XPostgres.unpartialize` for the partial
file `p`: if the complete sibling does not exist, rename `p` to it. -/
def unpartStep (cur : List Name) (p : Name) : List Name :=
  if withoutFinalSeg p ∈ cur then cur
  else (cur.erase p).concat (withoutFinalSeg p)

/-- `XPostgres.unpartialize`: for every `*.partial` child (globbed at
entry), rename it to its complete name when that name is free. -/
def unpartialize (dir : List Name) : List Name :=
  (dir.filter isPartialGlob).foldl unpartStep dir

/-- the hypothesis of the round-trip claim, as the code could check it:
no `*.partial` child has a complete sibling in the directory. -/
def noCompleteSibling (dir : List Name) : Bool :=
  dir.all (fun n => !(isPartialGlob n) || !(dir.contains (withoutFinalSeg n)))

/-! ## Definitions: inheritable filesystem lock — `bequeath` -/

/-- set a key in the `INHERITABLE_LOCK` environment carrier (a JSON object
mapping absolute lock paths to decimal PID strings), modelled as an
association list. -/
def carrierSet (k v : String) (m : List (String × String)) :
    List (String × String) :=
  (m.filter (fun kv => kv.1 != k)) ++ [(k, v)]

/-- the state `bequeath` manipulates: the `locked` flag, the environment
carrier, and the on-disk symlink target. -/
structure LockEnvState where
  locked : Bool
  carrier : List (String × String)
  linkTarget : Option String
deriving DecidableEq

/-- result of the synchronous part of `bequeath`. -/
inductive BequeathStart
  /-- `ValueError("Lock not held; cannot inherit.")` -/
  | failed
  /-- carrier written, `locked` cleared, polling started; the symlink is
  not touched. -/
  | polling (s : LockEnvState)
deriving DecidableEq

/-- the synchronous part of `InheritableFilesystemLock.bequeath`: requires
`locked`; writes `{abspath(name) → str(getpid())}` into the carrier and
marks the lock not held.  The symlink itself is untouched. -/
def bequeath_start (name pidStr : String) (s : LockEnvState) : BequeathStart :=
  if s.locked then
    .polling ⟨false, carrierSet name pidStr s.carrier, s.linkTarget⟩
  else .failed

/-- outcome of the 1 Hz bequeath poll. -/
inductive PollOutcome
  | success (ticks : Nat)
  | timeout
deriving DecidableEq

/-- the `check` closure of `bequeath`, called once per second by the
`LoopingCall`; `obs k` is the symlink target read at the `k`-th call
(`none` when `readlink` raises).  On call `k`: success when the target is
missing or differs from our PID; `TimeoutError` when `check.times > times`.
The fuel is `times + 1`, which the timeout check makes sufficient (the
zero-fuel branch is unreachable, see `bequeath_pollGo_fuel_irrelevant`
reasoning in the poll theorems). -/
def bequeath_pollGo (myPid : String) (obs : Nat → Option String) (times : Nat) :
    Nat → Nat → PollOutcome
  | _, 0 => .timeout
  | k, fuel + 1 =>
    if obs k ≠ some myPid then .success k
    else if times < k then .timeout
    else bequeath_pollGo myPid obs times (k + 1) fuel

/-- the polling loop of `bequeath` (`times = 30` at the call sites). -/
def bequeath_poll (myPid : String) (obs : Nat → Option String) (times : Nat) :
    PollOutcome :=
  bequeath_pollGo myPid obs times 1 (times + 1)

/-! ## Definitions: inheritable filesystem lock — `lock` (acquire) -/

/-- a live process, for the PID probes: its PID and owning UID. -/
structure Proc where
  pid : Nat
  uid : Nat
deriving DecidableEq

/-- the on-disk lock state: the symlink target (a decimal PID), when the
link exists. -/
structure LockFS where
  target : Option Nat
deriving DecidableEq

/-- what `twisted.python.lockfile.FilesystemLock.lock` can do. -/
inductive TwistedOutcome
  /-- `lock()` returned `True`; the link now holds our PID. -/
  | success (fs : LockFS) (clean : Bool)
  /-- `lock()` returned `False`; the link is untouched. -/
  | failure (fs : LockFS)
  /-- `lock()` re-raised `OSError` (an `EPERM` from `kill`). -/
  | oserror (fs : LockFS)
deriving DecidableEq

/-- `twisted.python.lockfile.FilesystemLock.lock` — the `super().lock()`
call: `symlink(str(getpid()), name)`; on `EEXIST`, read the link and probe
the recorded PID with `kill(int(pid), 0)`.  A dead PID (`ESRCH`) removes
the stale link and retries, which in this sequential (race-free) model
immediately succeeds with `clean = False`; a live PID the caller may signal
(same UID; the model assumes a non-root caller) returns `False`; a live PID
owned by another user makes `kill` raise `EPERM`, which `lock` re-raises. -/
def twisted_filesystem_lock (myPid myUid : Nat) (procs : List Proc)
    (fs : LockFS) : TwistedOutcome :=
  match fs.target with
  | none => .success ⟨some myPid⟩ true
  | some p =>
    if procs.any (fun q => (q.pid == p) && (q.uid == myUid)) then .failure fs
    else if procs.any (fun q => q.pid == p) then .oserror fs
    else .success ⟨some myPid⟩ false

/-- a row of `ps -ef | grep -v grep` output with at least two columns:
`cols[0]` is the owner column, `cols[1]` the PID column (both strings). -/
structure PsRow where
  owner : String
  pid : String
deriving DecidableEq

/-- the CPython identity test `owner is not my_uid` in the stale-PID
cleanup: `owner` is a `str` (a column of `ps` output) and `my_uid` an `int`
(from `os.getuid()`); objects of distinct built-in types are never the same
object, so the test is always `True`, whatever the values. -/
def owner_is_not_my_uid (owner : String) (myUid : Nat) : Bool :=
  true

/-- the `except OSError:` handler of `InheritableFilesystemLock.lock`:
scan the `ps` rows for the first row whose PID column equals the link
target and whose owner `is not` our UID (always true, see
`owner_is_not_my_uid`); remove the link and return `False` on a match;
return `False` leaving the link when no row matches. -/
def stale_pid_scan (lockedPid : String) (myUid : Nat) (fs : LockFS) :
    List PsRow → Bool × LockFS
  | [] => (false, fs)
  | row :: rest =>
    if row.pid == lockedPid && owner_is_not_my_uid row.owner myUid then
      (false, ⟨none⟩)
    else stale_pid_scan lockedPid myUid fs rest

/-- the `ps -ef` table: one row per live process (the owner column's value
is irrelevant to the handler; the PID column is the decimal PID). -/
def psTable (procs : List Proc) : List PsRow :=
  procs.map (fun q => ⟨toString q.uid, toString q.pid⟩)

/-- `InheritableFilesystemLock.lock` in the situation claim C3 describes —
no `INHERITABLE_LOCK` carrier entry for this lock, so the inheritance
branch is skipped — composed from the Twisted base lock and the `OSError`
handler.  Returns the boolean result of `lock()` together with the
resulting link state. -/
def inheritable_lock_acquire (myPid myUid : Nat) (procs : List Proc)
    (fs : LockFS) : Bool × LockFS :=
  match twisted_filesystem_lock myPid myUid procs fs with
  | .success fs2 _ => (true, fs2)
  | .failure fs2 => (false, fs2)
  | .oserror fs2 =>
    match fs2.target with
    | none => (false, fs2)
    | some p => stale_pid_scan (toString p) myUid fs2 (psTable procs)

/-! ## Definitions: base-backup capture (`do_backup`) -/

/-- a direct child of the archive directory, with its creation time
(`st_birthtime`). -/
structure ArchEntry where
  name : String
  btime : Nat
deriving DecidableEq

/-- the archive directory for the capture model: its direct children
(WAL segments, `*.partial`, and the `base_backup` subdirectory when
present) and, separately, the files inside `base_backup/` as
`(name, size)` pairs (empty when the subdirectory is absent). -/
structure ArchiveFS where
  entries : List ArchEntry
  baseFiles : List (String × Nat)
deriving DecidableEq

/-- stable insertion of an entry into a list sorted ascending by birth
time. -/
def insertByBtime (e : ArchEntry) : List ArchEntry → List ArchEntry
  | [] => [e]
  | f :: fs => if e.btime ≤ f.btime then e :: f :: fs else f :: insertByBtime e fs

/-- `file_create_times.sort(key=lambda (t, f): t)` — a stable ascending
sort by birth time. -/
def sortByBtime (l : List ArchEntry) : List ArchEntry :=
  l.foldr insertByBtime []

/-- the capture path of `XPostgres.do_backup` (entered when
`should_backup()` is true), for a run whose `pg_basebackup` child
eventually exits 0 having written `outLen` bytes, with `now` the current
time (used as the birth time of a freshly created `base_backup`
directory).  The steps, in source order: remove a lingering `base.tar.gz`;
snapshot `(st_birthtime, f)` for *all* children of the archive directory;
create `base_backup/` if absent; write and fsync `base.tar.gz`; rename it
onto `base_complete.tar.gz`; then remove every snapshot entry except the
`MAINTAINED_LOG_COUNT` most recent by birth time (`FilePath.remove` is
recursive, so removing the `base_backup` entry removes its contents). -/
def do_backup_capture (fs : ArchiveFS) (now : Nat) (outLen : Nat) : ArchiveFS :=
  let base0 := fs.baseFiles.filter (fun f => f.1 != "base.tar.gz")
  let snapshot := fs.entries
  let entries1 :=
    if fs.entries.any (fun e => e.name == "base_backup") then fs.entries
    else fs.entries ++ [⟨"base_backup", now⟩]
  let base1 := base0 ++ [("base.tar.gz", outLen)]
  let base2 :=
    (base1.filter (fun f => f.1 != "base_complete.tar.gz" && f.1 != "base.tar.gz"))
      ++ [("base_complete.tar.gz", outLen)]
  let sorted := sortByBtime snapshot
  let doomed := (sorted.take (sorted.length - MAINTAINED_LOG_COUNT)).map ArchEntry.name
  let entries2 := entries1.filter (fun e => !(doomed.contains e.name))
  let base3 := if doomed.contains "base_backup" then [] else base2
  ⟨entries2, base3⟩

/-- the archive directory of the C2 failing run: the `base_backup`
subdirectory created at time 0 (holding the previous backup) and five WAL
segments streamed afterwards. -/
def c2FailingFS : ArchiveFS :=
  ⟨[⟨"base_backup", 0⟩, ⟨"w1", 1⟩, ⟨"w2", 2⟩, ⟨"w3", 3⟩, ⟨"w4", 4⟩, ⟨"w5", 5⟩],
   [("base_complete.tar.gz", 100)]⟩

/-! ## Definitions: the configuration rewriter

`enable_wal_archive_logging` / `disable_wal_archive_logging` /
`wal_archiving_is_enabled` rewrite `postgresql.conf` line by line with
`re.match` against a handful of fixed patterns.  Each pattern is embedded
as an executable function on character lists that reproduces the greedy /
backtracking behaviour of the concrete regular expression:

* `\s*` before a non-space literal and `\d+` / `\S*` before `(.*)` are
  maximal-munch (no backtracking can help them);
* `['\"].*['\"](.*)` takes the *last* quote character of the remainder
  (greedy `.*` backtracks to the last quote), so the group is the suffix
  after the last quote.

Lines come from `content.split("\n")`, so the subject never contains a
newline (making `.` equal to "any character" and `\s` irrelevant for
newlines). -/

/-- the apostrophe character used in `archive_command = '...'`. -/
def qc : Char := Char.ofNat 39

/-- Python `\s` on an ASCII `str` (no `re.UNICODE`): space, tab, newline,
carriage return, vertical tab, form feed. -/
def isPySpace (c : Char) : Bool :=
  c == Char.ofNat 32 || c == Char.ofNat 9 || c == Char.ofNat 10 ||
  c == Char.ofNat 13 || c == Char.ofNat 11 || c == Char.ofNat 12

/-- Python `\d` on an ASCII `str`. -/
def isPyDigit (c : Char) : Bool :=
  Char.ofNat 48 ≤ c && c ≤ Char.ofNat 57

/-- the character class `['\"]`. -/
def isQuoteChar (c : Char) : Bool :=
  c == Char.ofNat 39 || c == Char.ofNat 34

/-- strip an exact literal from the front of the subject. -/
def stripLit : List Char → List Char → Option (List Char)
  | [], s => some s
  | _ :: _, [] => none
  | c :: cs, d :: ds => if c = d then stripLit cs ds else none

/-- `\s*=\s*` after the key literal: skip spaces, require `=`, skip
spaces, and return the remainder. -/
def matchEqAfterKey (s : List Char) : Option (List Char) :=
  match s.dropWhile isPySpace with
  | c :: rest =>
    if c = Char.ofNat 61 then some (rest.dropWhile isPySpace) else none
  | [] => none

/-- `^\s*KEY\s*=\s*`, returning the remainder after the assignment. -/
def matchKeyEq (key : List Char) (l : List Char) : Option (List Char) :=
  (stripLit key (l.dropWhile isPySpace)).bind matchEqAfterKey

/-- `\s*#*KEY\s*=\s*` (only `archive_command`'s enable pattern uses
`#*`). -/
def matchKeyEqHashes (key : List Char) (l : List Char) : Option (List Char) :=
  (stripLit key
    ((l.dropWhile isPySpace).dropWhile (fun c => c == Char.ofNat 35))).bind
    matchEqAfterKey

/-- `\S*(.*)`: group(1) after the maximal run of non-space characters. -/
def valSstar (s : List Char) : Option (List Char) :=
  some (s.dropWhile (fun c => !(isPySpace c)))

/-- `\d+(.*)`: requires a leading digit; group(1) after the maximal digit
run. -/
def valDigits (s : List Char) : Option (List Char) :=
  match s with
  | c :: _ => if isPyDigit c then some (s.dropWhile isPyDigit) else none
  | [] => none

/-- `\S+(.*)` (only `wal_archiving_is_enabled`'s `wal_level` pattern):
requires a leading non-space. -/
def valSplus (s : List Char) : Option (List Char) :=
  match s with
  | c :: _ =>
    if isPySpace c then none else some (s.dropWhile (fun c => !(isPySpace c)))
  | [] => none

/-- the suffix of `l` after its last quote character, when it has one:
this is where greedy `.*['\"]` backtracks to. -/
def afterLastQuote (l : List Char) : Option (List Char) :=
  if (l.reverse.takeWhile (fun c => !(isQuoteChar c))).length = l.length then none
  else some (l.reverse.takeWhile (fun c => !(isQuoteChar c))).reverse

/-- `['\"].*['\"](.*)`: one quote character, then group(1) after the last
quote of the remainder. -/
def valQuoted (s : List Char) : Option (List Char) :=
  match s with
  | c :: rest => if isQuoteChar c then afterLastQuote rest else none
  | [] => none

/-- enable pattern `^\s*#archive_mode\s*=\s*\S*(.*)`. -/
def eMode (l : List Char) : Option (List Char) :=
  (matchKeyEq "#archive_mode".data l).bind valSstar

/-- enable pattern `^\s*#archive_timeout\s*=\s*\d+(.*)`. -/
def eTimeout (l : List Char) : Option (List Char) :=
  (matchKeyEq "#archive_timeout".data l).bind valDigits

/-- enable pattern `^\s*#max_wal_senders\s*=\s*\d+(.*)`. -/
def eSenders (l : List Char) : Option (List Char) :=
  (matchKeyEq "#max_wal_senders".data l).bind valDigits

/-- enable pattern `^\s*#wal_level\s*=\s*\S*(.*)`. -/
def eLevel (l : List Char) : Option (List Char) :=
  (matchKeyEq "#wal_level".data l).bind valSstar

/-- enable pattern `\s*#*archive_command\s*=\s*['\"].*['\"](.*)` (note:
`#*`, so it also matches an uncommented `archive_command`). -/
def eCommand (l : List Char) : Option (List Char) :=
  (matchKeyEqHashes "archive_command".data l).bind valQuoted

/-- disable pattern `^\s*archive_mode\s*=\s*\S*(.*)`. -/
def dMode (l : List Char) : Option (List Char) :=
  (matchKeyEq "archive_mode".data l).bind valSstar

/-- disable pattern `^\s*archive_timeout\s*=\s*\d+(.*)`. -/
def dTimeout (l : List Char) : Option (List Char) :=
  (matchKeyEq "archive_timeout".data l).bind valDigits

/-- disable pattern `^\s*max_wal_senders\s*=\s*\d+(.*)`. -/
def dSenders (l : List Char) : Option (List Char) :=
  (matchKeyEq "max_wal_senders".data l).bind valDigits

/-- disable pattern `^\s*wal_level\s*=\s*\S*(.*)`. -/
def dLevel (l : List Char) : Option (List Char) :=
  (matchKeyEq "wal_level".data l).bind valSstar

/-- disable pattern `^\s*archive_command\s*=\s*['\"].*['\"](.*)`. -/
def dCommand (l : List Char) : Option (List Char) :=
  (matchKeyEq "archive_command".data l).bind valQuoted

/-- the replacement value `'python <abspath of this file> archive %p
../backup/%f'`, with the path a parameter of the model. -/
def archiveCommandValue (binPath : List Char) : List Char :=
  qc :: ("python ".data ++ binPath ++ " archive %p ../backup/%f".data ++ [qc])

/-- one line of `XPostgres.enable_wal_archive_logging` for
`postgresql.conf`: the five patterns are tried in source order and the
first match replaces the line with the uncommented setting followed by the
preserved trailing text (group 1); an unmatched line passes through. -/
def enableLine (binPath : List Char) (l : List Char) : List Char :=
  match eMode l with
  | some g => "archive_mode = on".data ++ g
  | none =>
  match eTimeout l with
  | some g => "archive_timeout = 0".data ++ g
  | none =>
  match eSenders l with
  | some g => "max_wal_senders = 2".data ++ g
  | none =>
  match eLevel l with
  | some g => "wal_level = hot_standby".data ++ g
  | none =>
  match eCommand l with
  | some g => "archive_command = ".data ++ archiveCommandValue binPath ++ g
  | none => l

/-- one line of `XPostgres.disable_wal_archive_logging`: the five reverse
substitutions (`#archive_mode = off`, `#archive_timeout = 0`,
`#max_wal_senders = 0`, `#wal_level = minimal`, `#archive_command = ''`),
tried in source order. -/
def disableLine (l : List Char) : List Char :=
  match dMode l with
  | some g => "#archive_mode = off".data ++ g
  | none =>
  match dTimeout l with
  | some g => "#archive_timeout = 0".data ++ g
  | none =>
  match dSenders l with
  | some g => "#max_wal_senders = 0".data ++ g
  | none =>
  match dLevel l with
  | some g => "#wal_level = minimal".data ++ g
  | none =>
  match dCommand l with
  | some g => "#archive_command = ".data ++ [qc, qc] ++ g
  | none => l

/-- `toggle_wal_archive_logging`'s whole-file rewrite for
`postgresql.conf`: `getContent().split("\n")`, map the line function
appending `"\n"` to every line, `"".join`, `setContent`. -/
def rewriteConf (f : List Char → List Char) (content : List Char) : List Char :=
  ((splitOnChar (Char.ofNat 10) content).map
    (fun l => f l ++ [Char.ofNat 10])).flatten

/-- `toggle_wal_archive_logging(True)` restricted to `postgresql.conf`
(the claim is about that file; the `pg_hba.conf` half appends an
unrelated replication line). -/
def enable_wal_archive_logging (binPath content : List Char) : List Char :=
  rewriteConf (enableLine binPath) content

/-- `toggle_wal_archive_logging(False)` on `postgresql.conf`. -/
def disable_wal_archive_logging (content : List Char) : List Char :=
  rewriteConf disableLine content

/-- the side condition of the amended C6: every line either matches one of
the five commented (enable) patterns, or matches none of the five
uncommented (disable) patterns — i.e. the file has no uncommented archive
settings other than lines the enable pass rewrites. -/
def lineTogglable (l : List Char) : Bool :=
  (eMode l).isSome || (eTimeout l).isSome || (eSenders l).isSome ||
  (eLevel l).isSome || (eCommand l).isSome ||
  (!(dMode l).isSome && !(dTimeout l).isSome && !(dSenders l).isSome &&
   !(dLevel l).isSome && !(dCommand l).isSome)

/-- commented pattern `^\s*#archive_mode\s*=\s*.*` of
`wal_archiving_is_enabled`. -/
def ceMode (l : List Char) : Bool :=
  (matchKeyEq "#archive_mode".data l).isSome

/-- commented pattern `^\s*#archive_command\s*=\s*['\"].*['\"].*`. -/
def ceCommand (l : List Char) : Bool :=
  ((matchKeyEq "#archive_command".data l).bind valQuoted).isSome

/-- commented pattern `^\s*#max_wal_senders\s*=\s*\d+.*`. -/
def ceSenders (l : List Char) : Bool :=
  ((matchKeyEq "#max_wal_senders".data l).bind valDigits).isSome

/-- commented pattern `^\s*#wal_level\s*=\s*\S+.*`. -/
def ceLevel (l : List Char) : Bool :=
  ((matchKeyEq "#wal_level".data l).bind valSplus).isSome

/-- commented pattern `^\s*#archive_timeout\s*=\s*\d+.*`. -/
def ceTimeout (l : List Char) : Bool :=
  ((matchKeyEq "#archive_timeout".data l).bind valDigits).isSome

/-- does a line match any of the five commented patterns (in source
order)? -/
def ceAny (l : List Char) : Bool :=
  ceMode l || ceCommand l || ceSenders l || ceLevel l || ceTimeout l

/-- `XPostgres.wal_archiving_is_enabled` on the split lines of
`postgresql.conf`: return `False` at the first line matching any of the
five commented patterns, `True` when no line matches. -/
def wal_archiving_is_enabled : List (List Char) → Bool
  | [] => true
  | l :: rest => if ceAny l then false else wal_archiving_is_enabled rest

/-! ## Theorems: C1 — strict boundaries of the backup policy -/

/-- C1: `max_archive_gigabytes` uses strict `<` at each boundary (so
capacities 50/100/200 select caps 10/20/30), free space exactly 30 GB does
not trigger a backup (only strictly less does), and a backup exactly 900 s
old does not suppress one (only strictly younger does). -/
theorem should_backup_strict_boundaries :
    (∀ c : Nat, c < 50 → max_archive_gigabytes c = 5) ∧
    (∀ c : Nat, 50 ≤ c → c < 100 → max_archive_gigabytes c = 10) ∧
    (∀ c : Nat, 100 ≤ c → c < 200 → max_archive_gigabytes c = 20) ∧
    (∀ c : Nat, 200 ≤ c → max_archive_gigabytes c = 30) ∧
    max_archive_gigabytes 50 = 10 ∧
    max_archive_gigabytes 100 = 20 ∧
    max_archive_gigabytes 200 = 30 ∧
    (∀ e : BackupEnv, e.diskFreeGigs = 30 → e.backupExists = true →
      900 ≤ e.timeSinceChange →
      e.archiveLogBytes / GIGS ≤ max_archive_gigabytes e.capacityGigs →
      should_backup e = false) ∧
    (∀ e : BackupEnv, e.diskFreeGigs = 29 → should_backup e = true ∨
      (e.backupExists = true ∧ e.timeSinceChange < 900)) ∧
    (∀ e : BackupEnv, e.backupExists = true → e.timeSinceChange = 900 →
      e.diskFreeGigs < 30 → should_backup e = true) ∧
    (∀ e : BackupEnv, e.backupExists = true → e.timeSinceChange = 899 →
      should_backup e = false) := by
  refine ⟨?_, ?_, ?_, ?_, rfl, rfl, rfl, ?_, ?_, ?_, ?_⟩
  · intro c h; simp [max_archive_gigabytes, h]
  · intro c h1 h2; simp [max_archive_gigabytes, h2, Nat.not_lt.mpr h1]
  · intro c h1 h2
    have ha : ¬ c < 50 := by omega
    have hb : ¬ c < 100 := by omega
    simp [max_archive_gigabytes, h2, ha, hb]
  · intro c h
    have ha : ¬ c < 50 := by omega
    have hb : ¬ c < 100 := by omega
    have hc : ¬ c < 200 := by omega
    simp [max_archive_gigabytes, ha, hb, hc]
  · intro e hfree hex hage hlog
    simp only [should_backup, hfree, hex, MIN_BACKUP_THRESHOLD_SECS,
      MIN_FREE_SPACE_GIGS]
    have h1 : ¬ e.timeSinceChange < 900 := not_lt.mpr hage
    have h2 : ¬ (30 : Nat) > 30 := by norm_num
    have h3 : ¬ e.archiveLogBytes / GIGS > max_archive_gigabytes e.capacityGigs :=
      not_lt.mpr hlog
    simp [h1, h2, h3]
  · intro e hfree
    by_cases hb : e.backupExists = true
    · by_cases ht : e.timeSinceChange < 900
      · exact Or.inr ⟨hb, ht⟩
      · left
        simp [should_backup, hb, hfree, MIN_BACKUP_THRESHOLD_SECS,
          MIN_FREE_SPACE_GIGS, ht]
    · left
      simp only [Bool.not_eq_true] at hb
      simp [should_backup, hb, hfree, MIN_FREE_SPACE_GIGS]
  · intro e hex hage hfree
    have h1 : ¬ e.timeSinceChange < 900 := by omega
    simp [should_backup, hex, hage, MIN_BACKUP_THRESHOLD_SECS,
      MIN_FREE_SPACE_GIGS, hfree]
  · intro e hex hage
    simp [should_backup, hex, hage, MIN_BACKUP_THRESHOLD_SECS]

/-- Witness for `should_backup_strict_boundaries` at concrete inputs. -/
theorem should_backup_strict_boundaries_witness :
    max_archive_gigabytes 49 = 5 ∧
    should_backup ⟨true, 901, 30, 100, 0, false⟩ = false ∧
    should_backup ⟨true, 900, 29, 100, 0, false⟩ = true ∧
    should_backup ⟨true, 899, 0, 100, 0, false⟩ = false :=
  ⟨should_backup_strict_boundaries.1 49 (by norm_num),
   should_backup_strict_boundaries.2.2.2.2.2.2.2.1 ⟨true, 901, 30, 100, 0, false⟩
     rfl rfl (by norm_num) (by norm_num),
   should_backup_strict_boundaries.2.2.2.2.2.2.2.2.2.1 ⟨true, 900, 29, 100, 0, false⟩
     rfl rfl (by norm_num),
   should_backup_strict_boundaries.2.2.2.2.2.2.2.2.2.2 ⟨true, 899, 0, 100, 0, false⟩
     rfl rfl⟩

/-! ## Theorems: C8 — disk pressure versus the freshness window -/

/-- C8 counterexample: with free space below 30 GB (here 10 GB) but a
current backup only 100 s old, `should_backup` returns `false` — the 900 s
freshness window is evaluated *before* the disk-pressure condition, so disk
pressure does not override freshness, contrary to the claim. -/
theorem disk_pressure_does_not_override_freshness :
    should_backup ⟨true, 100, 10, 100, 0, false⟩ = false := rfl

/-- C8 amended: when free space is below 30 GB and the freshness window
does not apply (no current backup, or the backup is at least 900 s old),
`should_backup` returns `true` — even if `.DoNotBackup` exists, since the
disk-pressure check precedes the veto. -/
theorem disk_pressure_triggers_when_not_fresh (e : BackupEnv)
    (hfree : e.diskFreeGigs < 30)
    (hnf : e.backupExists = false ∨ 900 ≤ e.timeSinceChange) :
    should_backup e = true := by
  rcases hnf with hb | ht
  · simp [should_backup, hb, MIN_FREE_SPACE_GIGS, hfree]
  · have h1 : ¬ e.timeSinceChange < 900 := not_lt.mpr ht
    simp [should_backup, MIN_BACKUP_THRESHOLD_SECS, h1,
      MIN_FREE_SPACE_GIGS, hfree]

/-- Witness for `disk_pressure_triggers_when_not_fresh`: a 1000 s old
backup with 5 GB free and the `.DoNotBackup` veto present still backs up. -/
theorem disk_pressure_triggers_when_not_fresh_witness :
    should_backup ⟨true, 1000, 5, 100, 0, true⟩ = true :=
  disk_pressure_triggers_when_not_fresh ⟨true, 1000, 5, 100, 0, true⟩
    (by norm_num) (Or.inr (by norm_num))

/-! ## Theorems: C10 — the archiver personality -/

/-- C10: if the destination exists with the source's size the archiver
invocation is a no-op (destination and temporary untouched); otherwise the
destination ends up as a copy of the source with mode `0600` and the
`.in-progress` temporary has been renamed away. -/
theorem archiver_size_idempotent (src : AFile) (fs : ArchiverFS) :
    (∀ d : AFile, fs.dest = some d → d.size = src.size →
      xpgarchive_do_everything src fs = fs) ∧
    (archiver_noop src fs = false →
      xpgarchive_do_everything src fs =
        ⟨some ⟨src.content, 0o600⟩, none⟩) := by
  constructor
  · intro d hd hsz
    have h : archiver_noop src fs = true := by
      simp [archiver_noop, hd, hsz]
    simp [xpgarchive_do_everything, h]
  · intro h
    simp [xpgarchive_do_everything, h]

/-- Witness for `archiver_size_idempotent`: a two-byte destination matching
a two-byte source is left alone; a missing destination receives the copy
with mode `0600`. -/
theorem archiver_size_idempotent_witness :
    xpgarchive_do_everything ⟨[1, 2], 0o644⟩ ⟨some ⟨[3, 4], 0o644⟩, none⟩ =
      ⟨some ⟨[3, 4], 0o644⟩, none⟩ ∧
    xpgarchive_do_everything ⟨[1, 2], 0o644⟩ ⟨none, none⟩ =
      ⟨some ⟨[1, 2], 0o600⟩, none⟩ :=
  ⟨(archiver_size_idempotent ⟨[1, 2], 0o644⟩ ⟨some ⟨[3, 4], 0o644⟩, none⟩).1
      ⟨[3, 4], 0o644⟩ rfl rfl,
   (archiver_size_idempotent ⟨[1, 2], 0o644⟩ ⟨none, none⟩).2 rfl⟩

/-! ## Theorems: C5 — reference counting -/

theorem balance_eq_counts (ms : List CtrlMsg) :
    balance ms = (ms.count CtrlMsg.incref : Int) - (ms.count CtrlMsg.decref : Int) := by
  induction ms with
  | nil => simp [balance]
  | cons m rest ih =>
    cases m <;> simp [balance, List.count_cons, ih] <;> omega

theorem ctrl_run_refcount (ms : List CtrlMsg) :
    ∀ r : Int, ∀ b : Bool,
    (ms.foldl ctrl_step ⟨r, b⟩).refcount = r + balance ms := by
  induction ms with
  | nil => intro r b; simp [balance]
  | cons m rest ih =>
    intro r b
    cases m
    · have hstep : ctrl_step ⟨r, b⟩ CtrlMsg.incref = ⟨r + 1, b⟩ := rfl
      rw [List.foldl_cons, hstep, ih (r + 1) b]
      simp only [balance]
      ring
    · by_cases h0 : r - 1 = 0
      · have hstep : ctrl_step ⟨r, b⟩ CtrlMsg.decref = ⟨r - 1, false⟩ := by
          simp [ctrl_step, h0]
        rw [List.foldl_cons, hstep, ih (r - 1) false]
        simp only [balance]
        ring
      · have hstep : ctrl_step ⟨r, b⟩ CtrlMsg.decref = ⟨r - 1, b⟩ := by
          simp [ctrl_step, h0]
        rw [List.foldl_cons, hstep, ih (r - 1) b]
        simp only [balance]
        ring

/-- C5 counterexample: two pipelined `Decref` messages from the initial
count 1 — `decrefFrom` decrements unconditionally and messages keep being
dispatched after `reactor.stop()` — drive the reference count to `-1`, so
it does become negative. -/
theorem two_decrefs_negative :
    (ctrl_run [CtrlMsg.decref, CtrlMsg.decref]).refcount = -1 := rfl

/-- C5 amended: from the initial state (`refcount = 1`), after any
sequence of control messages the count equals `1 + #Incref - #Decref`
(the number of unmatched starts, counting the launching start); it is
non-negative exactly when the `Decref`s do not outnumber the `Incref`s
plus one (an excess `Decref` drives it negative, since `decrefFrom`
decrements unconditionally); and a running supervisor initiates shutdown
on a step exactly when that step is a `Decref` taken at count 1 (which
makes the count reach 0). -/
theorem refcount_balance :
    (∀ ms : List CtrlMsg, (ctrl_run ms).refcount =
      1 + ((ms.count CtrlMsg.incref : Int) - (ms.count CtrlMsg.decref : Int))) ∧
    (∀ ms : List CtrlMsg, 0 ≤ (ctrl_run ms).refcount ↔
      (ms.count CtrlMsg.decref : Int) ≤ (ms.count CtrlMsg.incref : Int) + 1) ∧
    (∀ (s : SupState) (m : CtrlMsg), s.running = true →
      ((ctrl_step s m).running = false ↔ m = CtrlMsg.decref ∧ s.refcount = 1)) := by
  have hA : ∀ ms : List CtrlMsg, (ctrl_run ms).refcount =
      1 + ((ms.count CtrlMsg.incref : Int) - (ms.count CtrlMsg.decref : Int)) := by
    intro ms
    rw [ctrl_run, ctrl_init, ctrl_run_refcount ms 1 true, balance_eq_counts]
  refine ⟨hA, ?_, ?_⟩
  · intro ms
    rw [hA ms]
    omega
  · intro s m hr
    cases m
    · simp [ctrl_step, hr]
    · by_cases h0 : s.refcount - 1 = 0
      · have h1 : s.refcount = 1 := by omega
        simp [ctrl_step, hr, h0, h1]
      · have h1 : s.refcount ≠ 1 := by omega
        simp [ctrl_step, hr, h0, h1]

/-- Witness for `refcount_balance` at concrete inputs: `[Incref, Decref]`
ends at count 1, which is non-negative since one `Decref` does not exceed
one `Incref` plus one; a `Decref` at count 1 stops the reactor. -/
theorem refcount_balance_witness :
    (ctrl_run [CtrlMsg.incref, CtrlMsg.decref]).refcount = 1 ∧
    0 ≤ (ctrl_run [CtrlMsg.incref, CtrlMsg.decref]).refcount ∧
    (ctrl_step ⟨1, true⟩ CtrlMsg.decref).running = false :=
  ⟨by simpa using refcount_balance.1 [CtrlMsg.incref, CtrlMsg.decref],
   (refcount_balance.2.1 [CtrlMsg.incref, CtrlMsg.decref]).mpr (by decide),
   (refcount_balance.2.2 ⟨1, true⟩ CtrlMsg.decref rfl).mpr ⟨rfl, rfl⟩⟩

/-! ## Theorems: C9 — pruning then unpartialize -/

/-- C9 counterexample: the directory `["A.partial", "B.in-progress"]` has
no `*.partial` with a complete sibling, yet startup pruning deletes the
`.in-progress` file and `unpartialize` renames `A.partial` to `A`, so the
composition is not the identity. -/
theorem prune_then_unpart_changes_dir :
    noCompleteSibling ["A.partial".data, "B.in-progress".data] = true ∧
    unpartialize (prune_useless_archive_logs
        ["A.partial".data, "B.in-progress".data]) =
      ["A".data] := by
  constructor <;> decide

/-- C9 amended: the composition unpartialize ∘ partial-pruning is the
identity on archive directories that contain no `*.partial` file and no
`*.in-progress` file (no name globs `*.partial` and no name has final
dot-segment `partial` or `in-progress`). -/
theorem prune_then_unpart_identity (dir : List Name)
    (h : ∀ n ∈ dir, isPartialGlob n = false ∧
      finalSeg n ≠ "partial".data ∧ finalSeg n ≠ "in-progress".data) :
    unpartialize (prune_useless_archive_logs dir) = dir := by
  have hgen : ∀ l : List Name,
      (∀ n ∈ l, finalSeg n ≠ "partial".data ∧ finalSeg n ≠ "in-progress".data) →
      ∀ cur, l.foldl pruneStep cur = cur := by
    intro l hl
    induction l with
    | nil => intro cur; rfl
    | cons a l2 ih =>
      intro cur
      have ha := hl a (by simp)
      have hstep : pruneStep cur a = cur := by
        by_cases hlen : 1 < (splitOnChar (Char.ofNat 46) a).length
        · simp [pruneStep, hlen, ha.1, ha.2]
        · simp [pruneStep, hlen]
      rw [List.foldl_cons, hstep]
      exact ih (fun n hn => hl n (by simp [hn])) cur
  have hprune : prune_useless_archive_logs dir = dir :=
    hgen dir (fun n hn => (h n hn).2) dir
  rw [unpartialize, hprune]
  have hfil : dir.filter isPartialGlob = [] := by
    rw [List.filter_eq_nil_iff]
    intro a ha
    simp [(h a ha).1]
  rw [hfil]
  rfl

/-- Witness for `prune_then_unpart_identity` on a directory of two plain
WAL segment names. -/
theorem prune_then_unpart_identity_witness :
    unpartialize (prune_useless_archive_logs
      ["000000010000000000000001".data, "000000010000000000000002".data]) =
      ["000000010000000000000001".data, "000000010000000000000002".data] :=
  prune_then_unpart_identity _ (by decide)

/-! ## Theorems: C4 — bequeath -/

theorem pollGo_all_same (myPid : String) (obs : Nat → Option String)
    (times : Nat) :
    ∀ fuel k, 1 ≤ k → k + fuel = times + 2 →
    (∀ i, k ≤ i → i ≤ times + 1 → obs i = some myPid) →
    bequeath_pollGo myPid obs times k fuel = PollOutcome.timeout := by
  intro fuel
  induction fuel with
  | zero => intro k _ _ _; rfl
  | succ f ih =>
    intro k hk hsum hobs
    have hk2 : k ≤ times + 1 := by omega
    have h1 : obs k = some myPid := hobs k le_rfl hk2
    by_cases hlt : times < k
    · simp [bequeath_pollGo, h1, hlt]
    · simp only [bequeath_pollGo, h1, hlt, ne_eq, not_true_eq_false, if_false,
        ite_false]
      exact ih (k + 1) (by omega) (by omega) (fun i hi1 hi2 => hobs i (by omega) hi2)

theorem pollGo_first_change (myPid : String) (obs : Nat → Option String)
    (times : Nat) :
    ∀ fuel k j, k ≤ j → j < k + fuel →
    obs j ≠ some myPid →
    (∀ i, k ≤ i → i < j → obs i = some myPid) →
    j ≤ times + 1 →
    bequeath_pollGo myPid obs times k fuel = PollOutcome.success j := by
  intro fuel
  induction fuel with
  | zero => intro k j h1 h2 _ _ _; omega
  | succ f ih =>
    intro k j hkj hlt hj hbefore hjb
    by_cases hkeq : k = j
    · subst hkeq
      simp [bequeath_pollGo, hj]
    · have hklt : k < j := by omega
      have hok : obs k = some myPid := hbefore k le_rfl hklt
      have hktimes : ¬ times < k := by omega
      simp only [bequeath_pollGo, hok, hktimes, ne_eq, not_true_eq_false,
        if_false, ite_false]
      exact ih (k + 1) j (by omega) (by omega) hj
        (fun i h1 h2 => hbefore i (by omega) h2) hjb

/-- C4: `bequeath` fails when the lock is not held; when held it writes
`{absolute(P) → pidString}` into the carrier, marks not-held, and leaves
the symlink in place; the 1 Hz poll raises `TimeoutError` when the target
has stayed equal to the caller's PID for every observation within the
30-tick bound, and succeeds at the first observation where the target has
become something else (a different PID, or a removed link). -/
theorem bequeath_behaviour :
    (∀ name pidStr s, s.locked = false →
      bequeath_start name pidStr s = BequeathStart.failed) ∧
    (∀ name pidStr s, s.locked = true →
      bequeath_start name pidStr s =
        BequeathStart.polling ⟨false, carrierSet name pidStr s.carrier, s.linkTarget⟩) ∧
    (∀ myPid obs, (∀ k, 1 ≤ k → k ≤ 31 → obs k = some myPid) →
      bequeath_poll myPid obs 30 = PollOutcome.timeout) ∧
    (∀ myPid obs j, 1 ≤ j → j ≤ 31 → obs j ≠ some myPid →
      (∀ k, 1 ≤ k → k < j → obs k = some myPid) →
      bequeath_poll myPid obs 30 = PollOutcome.success j) := by
  refine ⟨?_, ?_, ?_, ?_⟩
  · intro name pidStr s h; simp [bequeath_start, h]
  · intro name pidStr s h; simp [bequeath_start, h]
  · intro myPid obs h
    exact pollGo_all_same myPid obs 30 31 1 le_rfl rfl (fun i hi1 hi2 => h i hi1 hi2)
  · intro myPid obs j h1 h2 h3 h4
    exact pollGo_first_change myPid obs 30 31 1 j h1 (by omega) h3
      (fun i hi1 hi2 => h4 i hi1 hi2) h2

/-- Witness for `bequeath_behaviour`: holding the lock writes the carrier
entry; a link that never changes times out; a link gone at the first
observation succeeds at tick 1. -/
theorem bequeath_behaviour_witness :
    bequeath_start "/var/pgsql_socket/.xpg.skt.lock" "42" ⟨true, [], some "42"⟩ =
      BequeathStart.polling
        ⟨false, [("/var/pgsql_socket/.xpg.skt.lock", "42")], some "42"⟩ ∧
    bequeath_poll "42" (fun _ => some "42") 30 = PollOutcome.timeout ∧
    bequeath_poll "42" (fun _ => none) 30 = PollOutcome.success 1 :=
  ⟨bequeath_behaviour.2.1 "/var/pgsql_socket/.xpg.skt.lock" "42"
      ⟨true, [], some "42"⟩ rfl,
   bequeath_behaviour.2.2.1 "42" (fun _ => some "42") (fun _ _ _ => rfl),
   bequeath_behaviour.2.2.2 "42" (fun _ => none) 1 le_rfl (by norm_num)
     (by simp) (fun k hk1 hk2 => absurd hk1 (by omega))⟩

/-! ## Theorems: C3 — lock acquisition and the stale-PID probe -/

/-- C3 counterexample: with the link recording PID 424242 and no such live
process, `lock()` removes the stale link and *acquires* the lock, returning
`true` with the link rewritten to the caller's PID — not `false` as the
claim states (the stale-PID removal happens inside the Twisted base class,
which then retries and succeeds). -/
theorem lock_stale_pid_acquires :
    inheritable_lock_acquire 7 500 [] ⟨some 424242⟩ = (true, ⟨some 7⟩) := rfl

theorem stale_pid_scan_finds (lockedPid : String) (myUid : Nat) (fs : LockFS) :
    ∀ rows : List PsRow, (∃ r ∈ rows, r.pid = lockedPid) →
    stale_pid_scan lockedPid myUid fs rows = (false, ⟨none⟩) := by
  intro rows
  induction rows with
  | nil => rintro ⟨r, hr, _⟩; simp at hr
  | cons row rest ih =>
    rintro ⟨r, hr, hpid⟩
    by_cases hhead : row.pid == lockedPid
    · simp [stale_pid_scan, hhead, owner_is_not_my_uid]
    · have hmem : r ∈ rest := by
        rcases List.mem_cons.mp hr with heq | hmem
        · exact absurd (beq_iff_eq.mpr (heq ▸ hpid)) hhead
        · exact hmem
      simp only [stale_pid_scan, hhead, owner_is_not_my_uid, Bool.false_and,
        Bool.and_true, if_false, ite_false]
      exact ih ⟨r, hmem, hpid⟩

/-- C3 amended: when there is no env-carrier entry and the lock file
already exists recording PID `p`: if `p` is not live, the stale link is
removed and the lock is *acquired* (the call returns `true`); if `p` is a
live process owned by the caller's UID, the link is left in place and the
call returns `false`; if `p` is a live process owned by another UID, the
link is removed and the call returns `false` (so a retry can succeed). -/
theorem lock_probe_by_liveness (myPid myUid : Nat) (procs : List Proc) (p : Nat) :
    (procs.any (fun q => q.pid == p) = false →
      inheritable_lock_acquire myPid myUid procs ⟨some p⟩ = (true, ⟨some myPid⟩)) ∧
    (procs.any (fun q => (q.pid == p) && (q.uid == myUid)) = true →
      inheritable_lock_acquire myPid myUid procs ⟨some p⟩ = (false, ⟨some p⟩)) ∧
    (procs.any (fun q => q.pid == p) = true →
      procs.any (fun q => (q.pid == p) && (q.uid == myUid)) = false →
      inheritable_lock_acquire myPid myUid procs ⟨some p⟩ = (false, ⟨none⟩)) := by
  refine ⟨?_, ?_, ?_⟩
  · intro hdead
    have hmine : procs.any (fun q => (q.pid == p) && (q.uid == myUid)) = false := by
      rw [List.any_eq_false] at hdead ⊢
      intro q hq
      have := hdead q hq
      simp only [Bool.and_eq_true, not_and]
      intro hpid
      exact absurd hpid this
    simp [inheritable_lock_acquire, twisted_filesystem_lock, hmine, hdead]
  · intro hmine
    simp [inheritable_lock_acquire, twisted_filesystem_lock, hmine]
  · intro halive hmine
    simp only [inheritable_lock_acquire, twisted_filesystem_lock, hmine,
      halive, Bool.false_eq_true, if_false, if_true, ite_false, ite_true]
    apply stale_pid_scan_finds
    rw [List.any_eq_true] at halive
    obtain ⟨q, hq, hqp⟩ := halive
    refine ⟨⟨toString q.uid, toString q.pid⟩, List.mem_map_of_mem _ hq, ?_⟩
    simp only
    exact congrArg toString (by exact beq_iff_eq.mp hqp)

/-- Witness for `lock_probe_by_liveness`: a live holder with the caller's
UID keeps the link and refuses; a live holder with another UID gets its
link removed and the call refuses. -/
theorem lock_probe_by_liveness_witness :
    inheritable_lock_acquire 7 500 [⟨9, 500⟩] ⟨some 9⟩ = (false, ⟨some 9⟩) ∧
    inheritable_lock_acquire 7 500 [⟨9, 600⟩] ⟨some 9⟩ = (false, ⟨none⟩) :=
  ⟨(lock_probe_by_liveness 7 500 [⟨9, 500⟩] 9).2.1 (by decide),
   (lock_probe_by_liveness 7 500 [⟨9, 600⟩] 9).2.2 (by decide) (by decide)⟩

/-! ## Theorems: C2 — post-capture pruning destroys the fresh backup -/

/-- C2 (code bug, evaluated at the failing input): on a second capture over
an archive directory whose `base_backup` subdirectory (birth time 0) is
older than the 4 newest of its 6 children, the post-capture prune removes
the `base_backup` directory itself — the just-renamed
`base_complete.tar.gz` no longer exists — while the WAL half of the claim
holds (only the 4 newest snapshot entries remain). -/
theorem do_backup_deletes_fresh_backup :
    (do_backup_capture c2FailingFS 6 200).baseFiles = [] ∧
    (do_backup_capture c2FailingFS 6 200).entries.map ArchEntry.name =
      ["w2", "w3", "w4", "w5"] := by
  constructor <;> rfl

/-! ## Theorems: helper lemmas for the configuration rewriter -/

theorem stripLit_self : ∀ (xs r : List Char), stripLit xs (xs ++ r) = some r
  | [], _ => rfl
  | c :: cs, r => by simp [stripLit, stripLit_self cs r]

theorem dropWhile_shape (p : Char → Bool) (l : List Char) :
    l.dropWhile p = [] ∨ ∃ c rest, l.dropWhile p = c :: rest ∧ p c = false := by
  induction l with
  | nil => left; rfl
  | cons a t ih =>
    cases hpa : p a
    · right
      exact ⟨a, t, by simp [List.dropWhile_cons, hpa], hpa⟩
    · simpa [List.dropWhile_cons, hpa] using ih

theorem dropWhile_stops (p : Char → Bool) (g : List Char)
    (hg : g = [] ∨ ∃ c rest, g = c :: rest ∧ p c = false) :
    g.dropWhile p = g := by
  rcases hg with h | ⟨c, rest, hgc, hc⟩
  · simp [h]
  · subst hgc; simp [List.dropWhile_cons, hc]

theorem takeWhile_all_append (p : Char → Bool) :
    ∀ (l₁ l₂ : List Char), (∀ c ∈ l₁, p c = true) →
    (l₁ ++ l₂).takeWhile p = l₁ ++ l₂.takeWhile p
  | [], _, _ => rfl
  | c :: cs, l₂, h => by
    have hc : p c = true := h c (by simp)
    simp only [List.cons_append, List.takeWhile_cons, hc, if_true, ite_true]
    rw [takeWhile_all_append p cs l₂ (fun d hd => h d (by simp [hd]))]

theorem afterLastQuote_spec (m g : List Char) (q : Char)
    (hq : isQuoteChar q = true) (hg : ∀ c ∈ g, isQuoteChar c = false) :
    afterLastQuote (m ++ q :: g) = some g := by
  have hrev : (m ++ q :: g).reverse = g.reverse ++ q :: m.reverse := by
    simp [List.reverse_append]
  have htake : ((m ++ q :: g).reverse.takeWhile (fun c => !(isQuoteChar c)))
      = g.reverse := by
    rw [hrev, takeWhile_all_append _ _ _
      (fun c hc => by simp [hg c (List.mem_reverse.mp hc)])]
    simp [List.takeWhile_cons, hq]
  have hlen : g.reverse.length ≠ (m ++ q :: g).length := by
    simp [List.length_append]
    omega
  rw [afterLastQuote, htake, if_neg hlen, List.reverse_reverse]

theorem afterLastQuote_shape (l g : List Char) (h : afterLastQuote l = some g) :
    ∀ c ∈ g, isQuoteChar c = false := by
  rw [afterLastQuote] at h
  by_cases hlen : (l.reverse.takeWhile (fun c => !(isQuoteChar c))).length = l.length
  · simp [hlen] at h
  · rw [if_neg hlen] at h
    intro c hcg
    have hmem : c ∈ l.reverse.takeWhile (fun c => !(isQuoteChar c)) := by
      rw [← Option.some.inj h] at hcg
      exact List.mem_reverse.mp hcg
    have := List.mem_takeWhile_imp hmem
    simpa using this

theorem mem_of_dropWhile (p : Char → Bool) :
    ∀ (l : List Char), ∀ c ∈ l.dropWhile p, c ∈ l := by
  intro l
  induction l with
  | nil => intro c hc; simp at hc
  | cons a t ih =>
    intro c hc
    rw [List.dropWhile_cons] at hc
    by_cases hpa : p a = true
    · rw [if_pos hpa] at hc
      exact List.mem_cons_of_mem a (ih c hc)
    · rw [if_neg hpa] at hc
      exact hc

theorem mem_of_takeWhile (p : Char → Bool) :
    ∀ (l : List Char), ∀ c ∈ l.takeWhile p, c ∈ l := by
  intro l
  induction l with
  | nil => intro c hc; simp at hc
  | cons a t ih =>
    intro c hc
    rw [List.takeWhile_cons] at hc
    by_cases hpa : p a = true
    · rw [if_pos hpa] at hc
      rcases List.mem_cons.mp hc with h | h
      · exact List.mem_cons.mpr (Or.inl h)
      · exact List.mem_cons_of_mem a (ih c h)
    · rw [if_neg hpa] at hc
      simp at hc

theorem mem_of_stripLit :
    ∀ (k s r : List Char), stripLit k s = some r → ∀ c ∈ r, c ∈ s := by
  intro k
  induction k with
  | nil =>
    intro s r h c hc
    rw [stripLit] at h
    rw [Option.some.inj h]
    exact hc
  | cons a t ih =>
    intro s r h c hc
    cases s with
    | nil => simp [stripLit] at h
    | cons b bs =>
      rw [stripLit] at h
      by_cases hab : a = b
      · rw [if_pos hab] at h
        exact List.mem_cons_of_mem b (ih bs r h c hc)
      · rw [if_neg hab] at h
        cases h

theorem mem_of_matchEqAfterKey (s r : List Char)
    (h : matchEqAfterKey s = some r) : ∀ c ∈ r, c ∈ s := by
  rw [matchEqAfterKey] at h
  cases hd : s.dropWhile isPySpace with
  | nil => simp only [hd] at h; cases h
  | cons c0 rest =>
    simp only [hd] at h
    by_cases hc0 : c0 = Char.ofNat 61
    · rw [if_pos hc0] at h
      intro c hc
      rw [← Option.some.inj h] at hc
      have h1 : c ∈ rest := mem_of_dropWhile _ rest c hc
      have h2 : c ∈ s.dropWhile isPySpace := by
        rw [hd]; exact List.mem_cons_of_mem c0 h1
      exact mem_of_dropWhile _ s c h2
    · rw [if_neg hc0] at h
      cases h

theorem mem_of_afterLastQuote (l g : List Char)
    (h : afterLastQuote l = some g) : ∀ c ∈ g, c ∈ l := by
  rw [afterLastQuote] at h
  by_cases hlen : (l.reverse.takeWhile (fun c => !(isQuoteChar c))).length = l.length
  · simp [hlen] at h
  · rw [if_neg hlen] at h
    intro c hcg
    rw [← Option.some.inj h] at hcg
    have h1 : c ∈ l.reverse.takeWhile (fun c => !(isQuoteChar c)) :=
      List.mem_reverse.mp hcg
    have h2 : c ∈ l.reverse := mem_of_takeWhile _ l.reverse c h1
    exact List.mem_reverse.mp h2

theorem mem_of_valSstar (s g : List Char) (h : valSstar s = some g) :
    ∀ c ∈ g, c ∈ s := by
  rw [valSstar] at h
  intro c hc
  rw [← Option.some.inj h] at hc
  exact mem_of_dropWhile _ s c hc

theorem mem_of_valDigits (s g : List Char) (h : valDigits s = some g) :
    ∀ c ∈ g, c ∈ s := by
  cases s with
  | nil => simp [valDigits] at h
  | cons a t =>
    simp only [valDigits] at h
    by_cases ha : isPyDigit a = true
    · rw [if_pos ha] at h
      intro c hc
      rw [← Option.some.inj h] at hc
      exact mem_of_dropWhile _ (a :: t) c hc
    · rw [if_neg ha] at h
      cases h

theorem mem_of_valQuoted (s g : List Char) (h : valQuoted s = some g) :
    ∀ c ∈ g, c ∈ s := by
  cases s with
  | nil => simp [valQuoted] at h
  | cons a t =>
    simp only [valQuoted] at h
    by_cases ha : isQuoteChar a = true
    · rw [if_pos ha] at h
      intro c hc
      exact List.mem_cons_of_mem a (mem_of_afterLastQuote t g h c hc)
    · rw [if_neg ha] at h
      cases h

theorem mem_of_matchKeyEq (key l s : List Char)
    (h : matchKeyEq key l = some s) : ∀ c ∈ s, c ∈ l := by
  rw [matchKeyEq] at h
  obtain ⟨s1, hs1, hs2⟩ := Option.bind_eq_some.mp h
  intro c hc
  exact mem_of_dropWhile _ l c
    (mem_of_stripLit key _ s1 hs1 c (mem_of_matchEqAfterKey s1 s hs2 c hc))

theorem mem_of_matchKeyEqHashes (key l s : List Char)
    (h : matchKeyEqHashes key l = some s) : ∀ c ∈ s, c ∈ l := by
  rw [matchKeyEqHashes] at h
  obtain ⟨s1, hs1, hs2⟩ := Option.bind_eq_some.mp h
  intro c hc
  exact mem_of_dropWhile _ l c
    (mem_of_dropWhile _ _ c
      (mem_of_stripLit key _ s1 hs1 c (mem_of_matchEqAfterKey s1 s hs2 c hc)))

theorem splitOnChar_ne_nil (sep : Char) :
    ∀ l : List Char, splitOnChar sep l ≠ [] := by
  intro l
  cases l with
  | nil => simp [splitOnChar]
  | cons a t =>
    rw [splitOnChar]
    by_cases ha : a = sep
    · simp [ha]
    · rw [if_neg ha]
      cases h : splitOnChar sep t <;> simp

theorem splitOnChar_sep_free (sep : Char) :
    ∀ (content : List Char), ∀ l ∈ splitOnChar sep content, ∀ c ∈ l, c ≠ sep := by
  intro content
  induction content with
  | nil =>
    intro l hl c hc
    rw [splitOnChar] at hl
    simp only [List.mem_singleton] at hl
    subst hl
    simp at hc
  | cons a t ih =>
    intro l hl c hc
    rw [splitOnChar] at hl
    by_cases ha : a = sep
    · rw [if_pos ha] at hl
      rcases List.mem_cons.mp hl with h0 | h0
      · subst h0; simp at hc
      · exact ih l h0 c hc
    · rw [if_neg ha] at hl
      cases hsp : splitOnChar sep t with
      | nil => exact absurd hsp (splitOnChar_ne_nil sep t)
      | cons h0 t0 =>
        rw [hsp] at hl
        rcases List.mem_cons.mp hl with h1 | h1
        · subst h1
          rcases List.mem_cons.mp hc with h2 | h2
          · subst h2; exact ha
          · exact ih h0 (by rw [hsp]; exact List.mem_cons_self h0 t0) c h2
        · exact ih l (by rw [hsp]; exact List.mem_cons_of_mem h0 h1) c hc

theorem splitOnChar_append_sep (sep : Char) :
    ∀ (x rest : List Char), (∀ c ∈ x, c ≠ sep) →
    splitOnChar sep (x ++ sep :: rest) = x :: splitOnChar sep rest := by
  intro x
  induction x with
  | nil => intro rest _; simp [splitOnChar]
  | cons a t ih =>
    intro rest h
    have ha : a ≠ sep := h a (by simp)
    rw [List.cons_append, splitOnChar, if_neg ha,
      ih rest (fun c hc => h c (by simp [hc]))]

theorem split_rewriteConf (sep : Char) (f : List Char → List Char) :
    ∀ (ls : List (List Char)), (∀ l ∈ ls, ∀ c ∈ f l, c ≠ sep) →
    splitOnChar sep ((ls.map (fun l => f l ++ [sep])).flatten) =
      ls.map f ++ [[]] := by
  intro ls
  induction ls with
  | nil => intro _; simp [splitOnChar]
  | cons l ls2 ih =>
    intro h
    have hveq : ((l :: ls2).map (fun l => f l ++ [sep])).flatten =
        f l ++ sep :: ((ls2.map (fun l => f l ++ [sep])).flatten) := by
      simp
    rw [hveq, splitOnChar_append_sep sep (f l) _ (h l (by simp)),
      ih (fun l2 hl2 => h l2 (by simp [hl2]))]
    simp

theorem valSstar_shape (s g : List Char) (h : valSstar s = some g) :
    g.dropWhile (fun c => !(isPySpace c)) = g := by
  rw [valSstar] at h
  have hs := dropWhile_shape (fun c => !(isPySpace c)) s
  rw [Option.some.inj h] at hs
  exact dropWhile_stops _ g hs

theorem valDigits_shape (s g : List Char) (h : valDigits s = some g) :
    g.dropWhile isPyDigit = g := by
  cases s with
  | nil => simp [valDigits] at h
  | cons a t =>
    simp only [valDigits] at h
    by_cases ha : isPyDigit a = true
    · rw [if_pos ha] at h
      have hs := dropWhile_shape isPyDigit (a :: t)
      rw [Option.some.inj h] at hs
      exact dropWhile_stops _ g hs
    · rw [if_neg ha] at h
      cases h

theorem valQuoted_shape (s g : List Char) (h : valQuoted s = some g) :
    ∀ c ∈ g, isQuoteChar c = false := by
  cases s with
  | nil => simp [valQuoted] at h
  | cons a t =>
    simp only [valQuoted] at h
    by_cases ha : isQuoteChar a = true
    · rw [if_pos ha] at h
      exact afterLastQuote_shape t g h
    · rw [if_neg ha] at h
      cases h

theorem eMode_shape (l g : List Char) (h : eMode l = some g) :
    g.dropWhile (fun c => !(isPySpace c)) = g := by
  obtain ⟨s, _, hv⟩ := Option.bind_eq_some.mp h
  exact valSstar_shape s g hv

theorem eTimeout_shape (l g : List Char) (h : eTimeout l = some g) :
    g.dropWhile isPyDigit = g := by
  obtain ⟨s, _, hv⟩ := Option.bind_eq_some.mp h
  exact valDigits_shape s g hv

theorem eSenders_shape (l g : List Char) (h : eSenders l = some g) :
    g.dropWhile isPyDigit = g := by
  obtain ⟨s, _, hv⟩ := Option.bind_eq_some.mp h
  exact valDigits_shape s g hv

theorem eLevel_shape (l g : List Char) (h : eLevel l = some g) :
    g.dropWhile (fun c => !(isPySpace c)) = g := by
  obtain ⟨s, _, hv⟩ := Option.bind_eq_some.mp h
  exact valSstar_shape s g hv

theorem eCommand_shape (l g : List Char) (h : eCommand l = some g) :
    ∀ c ∈ g, isQuoteChar c = false := by
  obtain ⟨s, _, hv⟩ := Option.bind_eq_some.mp h
  exact valQuoted_shape s g hv

/-- the third enable pass reproduces the first one, line by line, on lines
that are either commented settings (rewritten by enable) or free of
uncommented settings. -/
theorem enableLine_roundtrip (binPath : List Char) (l : List Char)
    (hl : lineTogglable l = true) :
    enableLine binPath (disableLine (enableLine binPath l)) =
      enableLine binPath l := by
  cases h1 : eMode l with
  | some g =>
    have hstop := eMode_shape l g h1
    have he : enableLine binPath l = "archive_mode = on".data ++ g := by
      simp only [enableLine, h1]
    have hd : dMode ("archive_mode = on".data ++ g) = some g := by
      have hc : dMode ("archive_mode = on".data ++ g)
          = some (g.dropWhile (fun c => !(isPySpace c))) := rfl
      rw [hc, hstop]
    have hdl : disableLine ("archive_mode = on".data ++ g) =
        "#archive_mode = off".data ++ g := by
      simp only [disableLine, hd]
    have he2 : eMode ("#archive_mode = off".data ++ g) = some g := by
      have hc : eMode ("#archive_mode = off".data ++ g)
          = some (g.dropWhile (fun c => !(isPySpace c))) := rfl
      rw [hc, hstop]
    have hel : enableLine binPath ("#archive_mode = off".data ++ g) =
        "archive_mode = on".data ++ g := by
      simp only [enableLine, he2]
    rw [he, hdl, hel]
  | none =>
  cases h2 : eTimeout l with
  | some g =>
    have hstop := eTimeout_shape l g h2
    have he : enableLine binPath l = "archive_timeout = 0".data ++ g := by
      simp only [enableLine, h1, h2]
    have hd0 : dMode ("archive_timeout = 0".data ++ g) = none := rfl
    have hd : dTimeout ("archive_timeout = 0".data ++ g) = some g := by
      have hc : dTimeout ("archive_timeout = 0".data ++ g)
          = some (g.dropWhile isPyDigit) := rfl
      rw [hc, hstop]
    have hdl : disableLine ("archive_timeout = 0".data ++ g) =
        "#archive_timeout = 0".data ++ g := by
      simp only [disableLine, hd0, hd]
    have he0 : eMode ("#archive_timeout = 0".data ++ g) = none := rfl
    have he2 : eTimeout ("#archive_timeout = 0".data ++ g) = some g := by
      have hc : eTimeout ("#archive_timeout = 0".data ++ g)
          = some (g.dropWhile isPyDigit) := rfl
      rw [hc, hstop]
    have hel : enableLine binPath ("#archive_timeout = 0".data ++ g) =
        "archive_timeout = 0".data ++ g := by
      simp only [enableLine, he0, he2]
    rw [he, hdl, hel]
  | none =>
  cases h3 : eSenders l with
  | some g =>
    have hstop := eSenders_shape l g h3
    have he : enableLine binPath l = "max_wal_senders = 2".data ++ g := by
      simp only [enableLine, h1, h2, h3]
    have hd0 : dMode ("max_wal_senders = 2".data ++ g) = none := rfl
    have hd1 : dTimeout ("max_wal_senders = 2".data ++ g) = none := rfl
    have hd : dSenders ("max_wal_senders = 2".data ++ g) = some g := by
      have hc : dSenders ("max_wal_senders = 2".data ++ g)
          = some (g.dropWhile isPyDigit) := rfl
      rw [hc, hstop]
    have hdl : disableLine ("max_wal_senders = 2".data ++ g) =
        "#max_wal_senders = 0".data ++ g := by
      simp only [disableLine, hd0, hd1, hd]
    have he0 : eMode ("#max_wal_senders = 0".data ++ g) = none := rfl
    have he1 : eTimeout ("#max_wal_senders = 0".data ++ g) = none := rfl
    have he2 : eSenders ("#max_wal_senders = 0".data ++ g) = some g := by
      have hc : eSenders ("#max_wal_senders = 0".data ++ g)
          = some (g.dropWhile isPyDigit) := rfl
      rw [hc, hstop]
    have hel : enableLine binPath ("#max_wal_senders = 0".data ++ g) =
        "max_wal_senders = 2".data ++ g := by
      simp only [enableLine, he0, he1, he2]
    rw [he, hdl, hel]
  | none =>
  cases h4 : eLevel l with
  | some g =>
    have hstop := eLevel_shape l g h4
    have he : enableLine binPath l = "wal_level = hot_standby".data ++ g := by
      simp only [enableLine, h1, h2, h3, h4]
    have hd0 : dMode ("wal_level = hot_standby".data ++ g) = none := rfl
    have hd1 : dTimeout ("wal_level = hot_standby".data ++ g) = none := rfl
    have hd2 : dSenders ("wal_level = hot_standby".data ++ g) = none := rfl
    have hd : dLevel ("wal_level = hot_standby".data ++ g) = some g := by
      have hc : dLevel ("wal_level = hot_standby".data ++ g)
          = some (g.dropWhile (fun c => !(isPySpace c))) := rfl
      rw [hc, hstop]
    have hdl : disableLine ("wal_level = hot_standby".data ++ g) =
        "#wal_level = minimal".data ++ g := by
      simp only [disableLine, hd0, hd1, hd2, hd]
    have he0 : eMode ("#wal_level = minimal".data ++ g) = none := rfl
    have he1 : eTimeout ("#wal_level = minimal".data ++ g) = none := rfl
    have he2 : eSenders ("#wal_level = minimal".data ++ g) = none := rfl
    have he3 : eLevel ("#wal_level = minimal".data ++ g) = some g := by
      have hc : eLevel ("#wal_level = minimal".data ++ g)
          = some (g.dropWhile (fun c => !(isPySpace c))) := rfl
      rw [hc, hstop]
    have hel : enableLine binPath ("#wal_level = minimal".data ++ g) =
        "wal_level = hot_standby".data ++ g := by
      simp only [enableLine, he0, he1, he2, he3]
    rw [he, hdl, hel]
  | none =>
  cases h5 : eCommand l with
  | some g =>
    have hgq := eCommand_shape l g h5
    have he : enableLine binPath l =
        "archive_command = ".data ++ archiveCommandValue binPath ++ g := by
      simp only [enableLine, h1, h2, h3, h4, h5]
    have hd0 : dMode ("archive_command = ".data ++ archiveCommandValue binPath ++ g)
        = none := rfl
    have hd1 : dTimeout ("archive_command = ".data ++ archiveCommandValue binPath ++ g)
        = none := rfl
    have hd2 : dSenders ("archive_command = ".data ++ archiveCommandValue binPath ++ g)
        = none := rfl
    have hd3 : dLevel ("archive_command = ".data ++ archiveCommandValue binPath ++ g)
        = none := rfl
    have hc1 : dCommand ("archive_command = ".data ++ archiveCommandValue binPath ++ g)
        = afterLastQuote
            ("python ".data ++ binPath ++ " archive %p ../backup/%f".data ++ [qc] ++ g) :=
      rfl
    have hc2 : "python ".data ++ binPath ++ " archive %p ../backup/%f".data ++ [qc] ++ g
        = ("python ".data ++ binPath ++ " archive %p ../backup/%f".data) ++ qc :: g := by
      rw [List.append_assoc ("python ".data ++ binPath ++ " archive %p ../backup/%f".data)
        [qc] g]
      rfl
    have hd : dCommand ("archive_command = ".data ++ archiveCommandValue binPath ++ g)
        = some g := by
      rw [hc1, hc2]
      exact afterLastQuote_spec _ g qc (by decide) hgq
    have hdl : disableLine
        ("archive_command = ".data ++ archiveCommandValue binPath ++ g) =
        "#archive_command = ".data ++ [qc, qc] ++ g := by
      simp only [disableLine, hd0, hd1, hd2, hd3, hd]
    have he0 : eMode ("#archive_command = ".data ++ [qc, qc] ++ g) = none := rfl
    have he1 : eTimeout ("#archive_command = ".data ++ [qc, qc] ++ g) = none := rfl
    have he2 : eSenders ("#archive_command = ".data ++ [qc, qc] ++ g) = none := rfl
    have he3 : eLevel ("#archive_command = ".data ++ [qc, qc] ++ g) = none := rfl
    have he4 : eCommand ("#archive_command = ".data ++ [qc, qc] ++ g) =
        afterLastQuote (qc :: g) := rfl
    have he5 : eCommand ("#archive_command = ".data ++ [qc, qc] ++ g) = some g := by
      rw [he4]
      have := afterLastQuote_spec [] g qc (by decide) hgq
      simpa using this
    have hel : enableLine binPath ("#archive_command = ".data ++ [qc, qc] ++ g) =
        "archive_command = ".data ++ archiveCommandValue binPath ++ g := by
      simp only [enableLine, he0, he1, he2, he3, he5]
    rw [he, hdl, hel]
  | none =>
    have he : enableLine binPath l = l := by
      simp only [enableLine, h1, h2, h3, h4, h5]
    have hds : (dMode l).isSome = false ∧ (dTimeout l).isSome = false ∧
        (dSenders l).isSome = false ∧ (dLevel l).isSome = false ∧
        (dCommand l).isSome = false := by
      rw [lineTogglable, h1, h2, h3, h4, h5] at hl
      simp only [Option.isSome_none, Bool.false_or, Bool.and_eq_true,
        Bool.not_eq_true'] at hl
      exact ⟨hl.1.1.1.1, hl.1.1.1.2, hl.1.1.2, hl.1.2, hl.2⟩
    have hd1 : dMode l = none := by
      cases hx : dMode l
      · rfl
      · rw [hx] at hds; simp at hds
    have hd2 : dTimeout l = none := by
      cases hx : dTimeout l
      · rfl
      · rw [hx] at hds; simp at hds
    have hd3 : dSenders l = none := by
      cases hx : dSenders l
      · rfl
      · rw [hx] at hds; simp at hds
    have hd4 : dLevel l = none := by
      cases hx : dLevel l
      · rfl
      · rw [hx] at hds; simp at hds
    have hd5 : dCommand l = none := by
      cases hx : dCommand l
      · rfl
      · rw [hx] at hds; simp at hds
    have hdl : disableLine l = l := by
      simp only [disableLine, hd1, hd2, hd3, hd4, hd5]
    rw [he, hdl, he]

theorem archiveCommandValue_no_nl (binPath : List Char)
    (hb : ∀ c ∈ binPath, c ≠ Char.ofNat 10) :
    ∀ c ∈ archiveCommandValue binPath, c ≠ Char.ofNat 10 := by
  intro c hc
  rw [archiveCommandValue] at hc
  rcases List.mem_cons.mp hc with h | h
  · subst h; decide
  · rcases List.mem_append.mp h with h | h
    · rcases List.mem_append.mp h with h | h
      · rcases List.mem_append.mp h with h | h
        · exact (by decide : ∀ x ∈ "python ".data, x ≠ Char.ofNat 10) c h
        · exact hb c h
      · exact (by decide :
          ∀ x ∈ " archive %p ../backup/%f".data, x ≠ Char.ofNat 10) c h
    · simp only [List.mem_singleton] at h
      subst h; decide

theorem enableLine_no_nl (binPath l : List Char)
    (hb : ∀ c ∈ binPath, c ≠ Char.ofNat 10) (hl : ∀ c ∈ l, c ≠ Char.ofNat 10) :
    ∀ c ∈ enableLine binPath l, c ≠ Char.ofNat 10 := by
  cases h1 : eMode l with
  | some g =>
    obtain ⟨s, hs, hv⟩ := Option.bind_eq_some.mp h1
    simp only [enableLine, h1]
    intro c hc
    rcases List.mem_append.mp hc with h | h
    · exact (by decide : ∀ x ∈ "archive_mode = on".data, x ≠ Char.ofNat 10) c h
    · exact hl c (mem_of_matchKeyEq _ l s hs c (mem_of_valSstar s g hv c h))
  | none =>
  cases h2 : eTimeout l with
  | some g =>
    obtain ⟨s, hs, hv⟩ := Option.bind_eq_some.mp h2
    simp only [enableLine, h1, h2]
    intro c hc
    rcases List.mem_append.mp hc with h | h
    · exact (by decide : ∀ x ∈ "archive_timeout = 0".data, x ≠ Char.ofNat 10) c h
    · exact hl c (mem_of_matchKeyEq _ l s hs c (mem_of_valDigits s g hv c h))
  | none =>
  cases h3 : eSenders l with
  | some g =>
    obtain ⟨s, hs, hv⟩ := Option.bind_eq_some.mp h3
    simp only [enableLine, h1, h2, h3]
    intro c hc
    rcases List.mem_append.mp hc with h | h
    · exact (by decide : ∀ x ∈ "max_wal_senders = 2".data, x ≠ Char.ofNat 10) c h
    · exact hl c (mem_of_matchKeyEq _ l s hs c (mem_of_valDigits s g hv c h))
  | none =>
  cases h4 : eLevel l with
  | some g =>
    obtain ⟨s, hs, hv⟩ := Option.bind_eq_some.mp h4
    simp only [enableLine, h1, h2, h3, h4]
    intro c hc
    rcases List.mem_append.mp hc with h | h
    · exact (by decide :
        ∀ x ∈ "wal_level = hot_standby".data, x ≠ Char.ofNat 10) c h
    · exact hl c (mem_of_matchKeyEq _ l s hs c (mem_of_valSstar s g hv c h))
  | none =>
  cases h5 : eCommand l with
  | some g =>
    obtain ⟨s, hs, hv⟩ := Option.bind_eq_some.mp h5
    simp only [enableLine, h1, h2, h3, h4, h5]
    intro c hc
    rcases List.mem_append.mp hc with h | h
    · rcases List.mem_append.mp h with h | h
      · exact (by decide :
          ∀ x ∈ "archive_command = ".data, x ≠ Char.ofNat 10) c h
      · exact archiveCommandValue_no_nl binPath hb c h
    · exact hl c
        (mem_of_matchKeyEqHashes _ l s hs c (mem_of_valQuoted s g hv c h))
  | none =>
    simp only [enableLine, h1, h2, h3, h4, h5]
    exact hl

theorem disableLine_no_nl (l : List Char)
    (hl : ∀ c ∈ l, c ≠ Char.ofNat 10) :
    ∀ c ∈ disableLine l, c ≠ Char.ofNat 10 := by
  cases h1 : dMode l with
  | some g =>
    obtain ⟨s, hs, hv⟩ := Option.bind_eq_some.mp h1
    simp only [disableLine, h1]
    intro c hc
    rcases List.mem_append.mp hc with h | h
    · exact (by decide : ∀ x ∈ "#archive_mode = off".data, x ≠ Char.ofNat 10) c h
    · exact hl c (mem_of_matchKeyEq _ l s hs c (mem_of_valSstar s g hv c h))
  | none =>
  cases h2 : dTimeout l with
  | some g =>
    obtain ⟨s, hs, hv⟩ := Option.bind_eq_some.mp h2
    simp only [disableLine, h1, h2]
    intro c hc
    rcases List.mem_append.mp hc with h | h
    · exact (by decide : ∀ x ∈ "#archive_timeout = 0".data, x ≠ Char.ofNat 10) c h
    · exact hl c (mem_of_matchKeyEq _ l s hs c (mem_of_valDigits s g hv c h))
  | none =>
  cases h3 : dSenders l with
  | some g =>
    obtain ⟨s, hs, hv⟩ := Option.bind_eq_some.mp h3
    simp only [disableLine, h1, h2, h3]
    intro c hc
    rcases List.mem_append.mp hc with h | h
    · exact (by decide : ∀ x ∈ "#max_wal_senders = 0".data, x ≠ Char.ofNat 10) c h
    · exact hl c (mem_of_matchKeyEq _ l s hs c (mem_of_valDigits s g hv c h))
  | none =>
  cases h4 : dLevel l with
  | some g =>
    obtain ⟨s, hs, hv⟩ := Option.bind_eq_some.mp h4
    simp only [disableLine, h1, h2, h3, h4]
    intro c hc
    rcases List.mem_append.mp hc with h | h
    · exact (by decide : ∀ x ∈ "#wal_level = minimal".data, x ≠ Char.ofNat 10) c h
    · exact hl c (mem_of_matchKeyEq _ l s hs c (mem_of_valSstar s g hv c h))
  | none =>
  cases h5 : dCommand l with
  | some g =>
    obtain ⟨s, hs, hv⟩ := Option.bind_eq_some.mp h5
    simp only [disableLine, h1, h2, h3, h4, h5]
    intro c hc
    rcases List.mem_append.mp hc with h | h
    · rcases List.mem_append.mp h with h | h
      · exact (by decide :
          ∀ x ∈ "#archive_command = ".data, x ≠ Char.ofNat 10) c h
      · rcases List.mem_cons.mp h with h0 | h0
        · subst h0; decide
        · simp only [List.mem_singleton] at h0; subst h0; decide
    · exact hl c (mem_of_matchKeyEq _ l s hs c (mem_of_valQuoted s g hv c h))
  | none =>
    simp only [disableLine, h1, h2, h3, h4, h5]
    exact hl

/-! ## Theorems: C6 — enable ∘ disable ∘ enable -/

/-- C6 counterexample: already on the empty configuration file,
enable-disable-enable is not byte-for-byte equal to a single enable — every
whole-file rewrite appends one newline (splitting on `"\n"` yields a final
empty component which is written back with a trailing `"\n"`), so the
triple application ends with two extra newlines. -/
theorem toggle_three_not_toggle_one :
    enable_wal_archive_logging "/x.py".data
        (disable_wal_archive_logging (enable_wal_archive_logging "/x.py".data [])) ≠
      enable_wal_archive_logging "/x.py".data [] := by decide

/-- C6 amended: provided the binary path in the archive command contains no
newline, and every line of the initial content either matches
one of the five commented (enable) patterns or matches none of the five
uncommented (disable) patterns, applying enable, then disable, then enable
yields exactly the output of the first enable followed by two extra
newline characters (each whole-file rewrite appends one trailing newline;
the rewritten lines themselves coincide with the first enable's). -/
theorem enable_disable_enable (binPath content : List Char)
    (hbn : ∀ c ∈ binPath, c ≠ Char.ofNat 10)
    (hto : ∀ l ∈ splitOnChar (Char.ofNat 10) content, lineTogglable l = true) :
    enable_wal_archive_logging binPath
        (disable_wal_archive_logging (enable_wal_archive_logging binPath content)) =
      enable_wal_archive_logging binPath content ++ [Char.ofNat 10, Char.ofNat 10] := by
  have hLnl : ∀ l ∈ splitOnChar (Char.ofNat 10) content, ∀ c ∈ l, c ≠ Char.ofNat 10 :=
    splitOnChar_sep_free (Char.ofNat 10) content
  have hEnl : ∀ l ∈ splitOnChar (Char.ofNat 10) content,
      ∀ c ∈ enableLine binPath l, c ≠ Char.ofNat 10 :=
    fun l hlL => enableLine_no_nl binPath l hbn (hLnl l hlL)
  have hsplit1 : splitOnChar (Char.ofNat 10) (enable_wal_archive_logging binPath content)
      = (splitOnChar (Char.ofNat 10) content).map (enableLine binPath) ++ [[]] :=
    split_rewriteConf (Char.ofNat 10) (enableLine binPath) _ hEnl
  have hDnl : ∀ l ∈ (splitOnChar (Char.ofNat 10) content).map (enableLine binPath) ++ [[]],
      ∀ c ∈ disableLine l, c ≠ Char.ofNat 10 := by
    intro l hlmem
    rcases List.mem_append.mp hlmem with h | h
    · obtain ⟨l0, hl0, rfl⟩ := List.mem_map.mp h
      exact disableLine_no_nl _ (hEnl l0 hl0)
    · simp only [List.mem_singleton] at h
      subst h
      intro c hc
      rw [show disableLine [] = [] from rfl] at hc
      simp at hc
  have hsplit2 : splitOnChar (Char.ofNat 10)
        (disable_wal_archive_logging (enable_wal_archive_logging binPath content))
      = ((splitOnChar (Char.ofNat 10) content).map (enableLine binPath) ++ [[]]).map
          disableLine ++ [[]] := by
    rw [disable_wal_archive_logging, rewriteConf, hsplit1]
    exact split_rewriteConf (Char.ofNat 10) disableLine _ hDnl
  rw [show enable_wal_archive_logging binPath
        (disable_wal_archive_logging (enable_wal_archive_logging binPath content))
      = ((((splitOnChar (Char.ofNat 10) content).map (enableLine binPath) ++ [[]]).map
          disableLine ++ [[]]).map
            (fun l => enableLine binPath l ++ [Char.ofNat 10])).flatten from by
    rw [enable_wal_archive_logging, rewriteConf, hsplit2]]
  rw [enable_wal_archive_logging, rewriteConf]
  simp only [List.map_append, List.map_map, List.map_cons, List.map_nil,
    List.flatten_append, List.flatten_cons, List.flatten_nil]
  rw [List.map_congr_left (fun l hlL => by
    show enableLine binPath (disableLine (enableLine binPath l)) ++ [Char.ofNat 10]
        = enableLine binPath l ++ [Char.ofNat 10]
    rw [enableLine_roundtrip binPath l (hto l hlL)])]
  simp only [List.append_assoc]
  rfl

/-- Witness for `enable_disable_enable` on a concrete two-line pristine
configuration. -/
theorem enable_disable_enable_witness :
    enable_wal_archive_logging "/x.py".data
        (disable_wal_archive_logging (enable_wal_archive_logging "/x.py".data
          "#archive_mode = off\n#wal_level = minimal".data)) =
      enable_wal_archive_logging "/x.py".data
          "#archive_mode = off\n#wal_level = minimal".data
        ++ [Char.ofNat 10, Char.ofNat 10] :=
  enable_disable_enable "/x.py".data "#archive_mode = off\n#wal_level = minimal".data
    (by decide) (by decide)

/-! ## Theorems: C7 — `wal_archiving_is_enabled` -/

/-- C7 counterexample: on the one-line empty file,
`wal_archiving_is_enabled` returns `true` even though the file has no
uncommented line for any of the five settings (here checked for
`archive_mode`: zero lines match the uncommented pattern, not exactly
one). -/
theorem enabled_without_uncommented_lines :
    wal_archiving_is_enabled [[]] = true ∧
    ¬ ([([] : List Char)].countP (fun l => (dMode l).isSome) = 1) := by decide

/-- C7 amended: `wal_archiving_is_enabled` returns `true` iff no line of
the file matches any of the five commented-settings patterns; it neither
requires nor guarantees the existence (or uniqueness) of uncommented
settings lines. -/
theorem is_enabled_iff_no_commented_match (lines : List (List Char)) :
    wal_archiving_is_enabled lines = true ↔ ∀ l ∈ lines, ceAny l = false := by
  induction lines with
  | nil => simp [wal_archiving_is_enabled]
  | cons l rest ih =>
    rw [wal_archiving_is_enabled]
    cases hc : ceAny l
    · rw [if_neg Bool.false_ne_true, ih]
      constructor
      · intro h l2 hl2
        rcases List.mem_cons.mp hl2 with h0 | h0
        · subst h0; exact hc
        · exact h l2 h0
      · intro h l2 hl2
        exact h l2 (List.mem_cons_of_mem l hl2)
    · rw [if_pos rfl]
      constructor
      · intro h; cases h
      · intro h
        have := h l (List.mem_cons_self l rest)
        rw [this] at hc
        cases hc

/-- Witness for `is_enabled_iff_no_commented_match`: a file whose archive
settings are all uncommented reports archiving enabled. -/
theorem is_enabled_iff_no_commented_match_witness :
    wal_archiving_is_enabled
      ["archive_mode = on".data, "wal_level = hot_standby".data] = true :=
  (is_enabled_iff_no_commented_match _).mpr (by decide)

end XPG
